import Mathlib

/-!
A shallow embedding of the error-recovery core of a backtracking
parser-combinator engine (`src/recovery.rs`): the three built-in recovery
strategies (`SkipThenRetryUntil`, `SkipUntil`, `NestedDelimiters`) and the
alternate-parser combinator (`RecoverVia`), together with the stream/cursor
and error collaborators they are written against.

The strategies are translated directly from `src/recovery.rs`.  The
collaborators (input stream, `Located`, the error-constructor contract) are
not part of the source tree; they are modelled from the specification's
interface description: a cursor over a token buffer with `save` / `revert` /
`next` / `span_since` and a reversible probe `attempt`, positions being
offsets, and an error type supporting the two pure constructors
`expected_input_found` and `unclosed_delimiter` (plus opaque user errors).
-/

namespace Chumsky

/-- Spans are derived from two checkpoints: a half-open offset range. -/
abbrev Span : Type := Nat × Nat

/-- Modelled from the spec: the error collaborator (§4.1 of the spec).  The
recovery subsystem only ever *constructs* errors, via `expected_input_found`
and `unclosed_delimiter`; `custom` stands for every other error value a user
parser may produce (in particular the fatal error handed to a strategy). -/
inductive PError (I : Type) where
  | expectedInputFound (span : Span) (expected : List (Option I)) (found : Option I)
  | unclosedDelimiter (unclosedSpan : Span) (unclosed : I) (span : Span) (expected : I)
      (found : Option I)
  | custom (code : Nat)
  deriving DecidableEq

/-- A positioned error (`Located { at, error }` in the source; `at` is a
cursor offset).  `Located::at(at, error)` is the anonymous constructor. -/
structure Located (I : Type) where
  pos : Nat
  error : PError I
  deriving DecidableEq

/-- Modelled from the spec: the input stream/cursor collaborator (§6).  A
token buffer plus a cursor offset; checkpoints are cursor offsets, ordered
by `<`. -/
structure StreamOf (I : Type) where
  buf : List I
  cursor : Nat
  deriving DecidableEq

namespace StreamOf

variable {I R : Type}

/-- `save()` returns the current offset as an opaque checkpoint. -/
def save (s : StreamOf I) : Nat := s.cursor

/-- `revert(checkpoint)` restores the cursor exactly. -/
def revert (s : StreamOf I) (c : Nat) : StreamOf I := { s with cursor := c }

/-- `next()` consumes one input, returning `(position, span, Some token)`,
or signals end of input with `(position, empty span, None)`, leaving the
cursor in place. -/
def next (s : StreamOf I) : (Nat × Span × Option I) × StreamOf I :=
  match s.buf[s.cursor]? with
  | some t => ((s.cursor, (s.cursor, s.cursor + 1), some t), { s with cursor := s.cursor + 1 })
  | none => ((s.cursor, (s.cursor, s.cursor), none), s)

/-- `span_since(checkpoint)`: the consumed range from a checkpoint to the
current cursor. -/
def span_since (s : StreamOf I) (c : Nat) : Span := (c, s.cursor)

/-- The reversible probe: run `f` on the cursor; keep its mutation only when
it signals `commit = true`. -/
def attempt (s : StreamOf I) (f : StreamOf I → (Bool × R) × StreamOf I) : R × StreamOf I :=
  match f s with
  | ((commit, r), s') => (r, if commit then s' else s)

end StreamOf

/-- The diagnostic list: an insertion-ordered sequence of positioned errors. -/
abbrev Diag (I : Type) := List (Located I)

/-- `PResult<I, O, E>`: accumulated diagnostics plus either a fatal
positioned error or an output together with an optional alternative error. -/
abbrev PResult (I O : Type) := Diag I × Except (Located I) (O × Option (Located I))

/-- The wrapped-parser collaborator: `invoke(parser, stream)` runs the parser
on the live cursor and returns its diagnostics and result.  (The
debugging/tracing front end is opaque and behaviourally the identity here.) -/
abbrev ParserFn (I O : Type) := StreamOf I → PResult I O × StreamOf I

section Strategies

variable {I O : Type} [DecidableEq I]

/-- `SkipThenRetryUntil(until, consume_end, skip_start)` from the source
(tuple fields `.0`, `.1`, `.2`, named here after the builder methods). -/
structure SkipThenRetryUntil (I : Type) where
  until_ : List I
  consume_end : Bool
  skip_start : Bool

/-- The reversible probe inside `SkipThenRetryUntil::recover`'s loop:
terminator → `(consume_end, false)`, ordinary input → `(true, true)`,
end of input → `(false, false)`. -/
def SkipThenRetryUntil.probe (cfg : SkipThenRetryUntil I) (s : StreamOf I) :
    Bool × StreamOf I :=
  s.attempt fun s =>
    match s.next with
    | ((_, _, some t), s') =>
      if t ∈ cfg.until_ then ((cfg.consume_end, false), s') else ((true, true), s')
    | ((_, _, none), s') => ((false, false), s')

/-- The `loop` of `SkipThenRetryUntil::recover`.  The re-attempted parser is
an arbitrary function, so the loop is given explicit fuel; `none` means the
fuel ran out (any fuel larger than the number of iterations taken is
equivalent). -/
def SkipThenRetryUntil.loop (cfg : SkipThenRetryUntil I) (parser : ParserFn I O)
    (a_errors : Diag I) (a_err : Located I) :
    Nat → StreamOf I → Option (PResult I O × StreamOf I)
  | 0, _ => none
  | fuel + 1, s =>
    match cfg.probe s with
    | (false, s₁) => some ((a_errors, Except.error a_err), s₁)
    | (true, s₁) =>
      match parser s₁ with
      | ((errors, Except.ok out), s₂) => some ((errors ++ [a_err], Except.ok out), s₂)
      | ((_, Except.error _), s₂) =>
        SkipThenRetryUntil.loop cfg parser a_errors a_err fuel s₂

/-- `SkipThenRetryUntil::recover`: optionally discard one input, then loop. -/
def SkipThenRetryUntil.recover (cfg : SkipThenRetryUntil I) (a_errors : Diag I)
    (a_err : Located I) (parser : ParserFn I O) (fuel : Nat) (s : StreamOf I) :
    Option (PResult I O × StreamOf I) :=
  let s₀ := if cfg.skip_start then (s.next).2 else s
  SkipThenRetryUntil.loop cfg parser a_errors a_err fuel s₀

/-- `skip_then_retry_until(until)` constructor. -/
def skip_then_retry_until (u : List I) : SkipThenRetryUntil I := ⟨u, false, false⟩

/-- `SkipUntil(until, fallback, consume_end, skip_start)` from the source
(tuple fields `.0`–`.3`). -/
structure SkipUntil (I O : Type) where
  until_ : List I
  fallback : Span → O
  consume_end : Bool
  skip_start : Bool

/-- The reversible probe inside `SkipUntil::recover`'s loop: terminator →
`(consume_end, Ok true)`, ordinary input → `(true, Ok false)`, end of input
→ `(true, Err (position, span))`. -/
def SkipUntil.probe (cfg : SkipUntil I O) (s : StreamOf I) :
    (Except (Nat × Span) Bool) × StreamOf I :=
  s.attempt fun s =>
    match s.next with
    | ((_, _, some t), s') =>
      if t ∈ cfg.until_ then ((cfg.consume_end, Except.ok true), s')
      else ((true, Except.ok false), s')
    | ((atp, span, none), s') => ((true, Except.error (atp, span)), s')

/-- The `loop` of `SkipUntil::recover`: skip ordinary input until a
terminator (succeed), or end of input (succeed when the cursor advanced past
`pre_state`, otherwise fail with `expected_input_found`).  The loop consumes
one input per iteration, so it is given explicit fuel; `none` means the fuel
ran out, and `recover` passes fuel that provably never does. -/
def SkipUntil.loop (cfg : SkipUntil I O) (pre_state : Nat) (a_errors : Diag I) :
    Nat → StreamOf I → Option (PResult I O × StreamOf I)
  | 0, _ => none
  | fuel + 1, s =>
    match cfg.probe s with
    | (Except.ok true, s₁) =>
      some ((a_errors, Except.ok (cfg.fallback (s₁.span_since pre_state), none)), s₁)
    | (Except.ok false, s₁) => SkipUntil.loop cfg pre_state a_errors fuel s₁
    | (Except.error (atp, span), s₁) =>
      if s₁.save > pre_state then
        some ((a_errors, Except.ok (cfg.fallback (s₁.span_since pre_state), none)), s₁)
      else
        some ((a_errors,
          Except.error ⟨atp, PError.expectedInputFound span (cfg.until_.map some) none⟩), s₁)

/-- `SkipUntil::recover`: record the start checkpoint, optionally discard
one input, demote the fatal error to a diagnostic, then loop.  The fuel
`s.buf.length + 1` bounds the loop's iteration count, which never exceeds
the number of remaining tokens plus one. -/
def SkipUntil.recover (cfg : SkipUntil I O) (a_errors : Diag I) (a_err : Located I)
    (s : StreamOf I) : Option (PResult I O × StreamOf I) :=
  let pre_state := s.save
  let s₁ := if cfg.skip_start then (s.next).2 else s
  SkipUntil.loop cfg pre_state (a_errors ++ [a_err]) (s.buf.length + 1) s₁

/-- `skip_until(until, fallback)` constructor. -/
def skip_until (u : List I) (fallback : Span → O) : SkipUntil I O :=
  ⟨u, fallback, false, false⟩

/-- `NestedDelimiters(start, end, others, fallback)` from the source (tuple
fields `.0`–`.3`; `end` is a Lean keyword, hence `end_`). -/
structure NestedDelimiters (I O : Type) where
  start : I
  end_ : I
  others : List (I × I)
  fallback : Span → O

/-- The per-attempt state of `NestedDelimiters::recover`'s loop, together
with the live stream. -/
structure NDState (I : Type) where
  balance : Int
  balance_others : List Int
  starts : List Span
  error : Option (Located I)
  stream : StreamOf I

/-- The outcome of one iteration of the nested-delimiter loop: continue, or
break with `recovered : Bool`. -/
inductive StepRes (I : Type) where
  | cont (st : NDState I)
  | done (st : NDState I) (recovered : Bool)

/-- The `for (balance_other, others) in balance_others.iter_mut().zip(...)`
body of the ordinary-input arm: update each secondary pair's counter; when a
secondary end drives its counter below zero while `balance == 1`, record (on
first occurrence: `get_or_insert_with`) an unclosed-delimiter diagnostic for
the most recent primary opener via `starts.pop().unwrap()`.  `none` models
the `unwrap` panicking on an empty stack. -/
def ndOthers (cfg : NestedDelimiters I O) (balance : Int) (t : I) (atp : Nat) (span : Span) :
    List (Int × I × I) → List Span → Option (Located I) →
    Option (List Int × List Span × Option (Located I))
  | [], starts, error => some ([], starts, error)
  | (bo, os, oe) :: rest, starts, error =>
    if t = os then
      (ndOthers cfg balance t atp span rest starts error).map
        fun r => ((bo + 1) :: r.1, r.2)
    else if t = oe then
      if bo - 1 < 0 ∧ balance = 1 then
        match error with
        | some e =>
          (ndOthers cfg balance t atp span rest starts (some e)).map
            fun r => ((bo - 1) :: r.1, r.2)
        | none =>
          match starts with
          | [] => none
          | sp :: starts' =>
            (ndOthers cfg balance t atp span rest starts'
                (some ⟨atp, PError.unclosedDelimiter sp cfg.start span cfg.end_ (some t)⟩)).map
              fun r => ((bo - 1) :: r.1, r.2)
      else
        (ndOthers cfg balance t atp span rest starts error).map
          fun r => ((bo - 1) :: r.1, r.2)
    else
      (ndOthers cfg balance t atp span rest starts error).map
        fun r => (bo :: r.1, r.2)

/-- After a "matched" input (primary start or primary end), compare the
balance with zero: `Equal` breaks with success, `Less` breaks with failure,
`Greater` continues. -/
def afterMatched {I : Type} (st : NDState I) : StepRes I :=
  if st.balance = 0 then StepRes.done st true
  else if st.balance < 0 then StepRes.done st false
  else StepRes.cont st

/-- One iteration of `NestedDelimiters::recover`'s loop.  `none` models the
`starts.pop().unwrap()` panic inside the secondary-mismatch branch.  (In the
end-of-input arm the source also pops `starts`, but only to build the
diagnostic; the loop breaks immediately afterwards.) -/
def ndStep (cfg : NestedDelimiters I O) (st : NDState I) : Option (StepRes I) :=
  match st.stream.next with
  | ((atp, span, some t), s') =>
    if t = cfg.start then
      some (afterMatched
        { st with balance := st.balance + 1, starts := span :: st.starts, stream := s' })
    else if t = cfg.end_ then
      some (afterMatched
        { st with balance := st.balance - 1, starts := st.starts.tail, stream := s' })
    else
      match ndOthers cfg st.balance t atp span (st.balance_others.zip cfg.others)
          st.starts st.error with
      | none => none
      | some (bos, starts', error') =>
        let stn := { st with balance_others := bos, starts := starts', error := error',
                             stream := s' }
        if st.balance = 0 then some (StepRes.done stn false) else some (StepRes.cont stn)
  | ((atp, span, none), s') =>
    let error' :=
      if st.balance > 0 ∧ st.balance = 1 then
        match st.error with
        | some e => some e
        | none =>
          match st.starts with
          | start1 :: _ =>
            some ⟨atp, PError.unclosedDelimiter start1 cfg.start span cfg.end_ none⟩
          | [] => some ⟨atp, PError.expectedInputFound span [some cfg.end_] none⟩
      else st.error
    some (StepRes.done { st with error := error', stream := s' } false)

/-- The scanning loop of `NestedDelimiters::recover`, iterating `ndStep`
until it breaks.  The loop consumes one input per iteration, so it is given
explicit fuel; `none` means the modelled panic occurred or the fuel ran out
(and `recover` passes fuel that provably never does). -/
def ndLoop (cfg : NestedDelimiters I O) : Nat → NDState I → Option (Bool × NDState I)
  | 0, _ => none
  | fuel + 1, st =>
    match ndStep cfg st with
    | none => none
    | some (StepRes.done st' r) => some (r, st')
    | some (StepRes.cont st') => ndLoop cfg fuel st'

/-- `NestedDelimiters::recover`: run the scanning loop from a fresh balance
state, append any recorded diagnostic, then on success conditionally append
the demoted fatal error (`a_errors.last().map_or(true, |e| a_err.at < e.at)`)
and return the fallback value over the span since the start; on failure
re-raise the fatal error. -/
def NestedDelimiters.recover (cfg : NestedDelimiters I O) (a_errors : Diag I)
    (a_err : Located I) (s : StreamOf I) : Option (PResult I O × StreamOf I) :=
  let pre_state := s.save
  match ndLoop cfg (s.buf.length + 1) ⟨0, List.replicate cfg.others.length 0, [], none, s⟩ with
  | none => none
  | some (recovered, st) =>
    let a_errors₁ := a_errors ++ st.error.toList
    if recovered then
      let a_errors₂ :=
        match a_errors₁.getLast? with
        | none => a_errors₁ ++ [a_err]
        | some e => if a_err.pos < e.pos then a_errors₁ ++ [a_err] else a_errors₁
      some ((a_errors₂, Except.ok (cfg.fallback (st.stream.span_since pre_state), none)),
        st.stream)
    else
      some ((a_errors₁, Except.error a_err), st.stream)

/-- `nested_delimiters(start, end, others, fallback)` constructor; the
source asserts `start != end`, modelled as returning `none`. -/
def nested_delimiters (start e : I) (others : List (I × I)) (fallback : Span → O) :
    Option (NestedDelimiters I O) :=
  if start = e then none else some ⟨start, e, others, fallback⟩

/-- `RecoverVia(a, b)`: the alternate-parser combinator. -/
structure RecoverVia (I O : Type) where
  a : ParserFn I O
  b : ParserFn I O

/-- `RecoverVia::parse_inner`: try `a`; on failure revert and try `b`; on
`b`'s success merge diagnostics as `a`'s, then `a`'s fatal error, then `b`'s;
on double failure revert again and re-raise `a`'s fatal error alone. -/
def RecoverVia.parse_inner (p : RecoverVia I O) (s : StreamOf I) :
    PResult I O × StreamOf I :=
  let pre_state := s.save
  match p.a s with
  | ((a_errors, Except.ok a_out), s₁) => ((a_errors, Except.ok a_out), s₁)
  | ((a_errors, Except.error a_error), s₁) =>
    match p.b (s₁.revert pre_state) with
    | ((b_errors, Except.ok b_out), s₂) =>
      ((a_errors ++ a_error :: b_errors, Except.ok b_out), s₂)
    | ((_, Except.error _), s₂) => ((a_errors, Except.error a_error), s₂.revert pre_state)

/-- The stack/balance invariant of the nested-delimiter loop: while no
mismatch diagnostic has been recorded, the primary-opener stack has exactly
`balance` entries whenever `balance` is non-negative. -/
def NDInv (st : NDState I) : Prop :=
  st.error = none → 0 ≤ st.balance → st.starts.length = st.balance.toNat

/-- The error is an `unclosed_delimiter` diagnostic. -/
def PError.isUnclosed : PError I → Prop
  | PError.unclosedDelimiter _ _ _ _ _ => True
  | _ => False

end Strategies

section StreamLemmas

variable {I : Type}

theorem StreamOf.next_some {s : StreamOf I} {t : I} (h : s.buf[s.cursor]? = some t) :
    s.next = ((s.cursor, (s.cursor, s.cursor + 1), some t),
      { s with cursor := s.cursor + 1 }) := by
  unfold StreamOf.next
  rw [h]

theorem StreamOf.next_none {s : StreamOf I} (h : s.buf[s.cursor]? = none) :
    s.next = ((s.cursor, (s.cursor, s.cursor), none), s) := by
  unfold StreamOf.next
  rw [h]

end StreamLemmas

section ProbeLemmas

variable {I O : Type} [DecidableEq I]

theorem suProbe_mem {cfg : SkipUntil I O} {s : StreamOf I} {t : I}
    (h : s.buf[s.cursor]? = some t) (hm : t ∈ cfg.until_) :
    cfg.probe s = (Except.ok true,
      if cfg.consume_end then { s with cursor := s.cursor + 1 } else s) := by
  simp only [SkipUntil.probe, StreamOf.attempt]
  rw [StreamOf.next_some h]
  simp [hm]

theorem suProbe_ord {cfg : SkipUntil I O} {s : StreamOf I} {t : I}
    (h : s.buf[s.cursor]? = some t) (hm : t ∉ cfg.until_) :
    cfg.probe s = (Except.ok false, { s with cursor := s.cursor + 1 }) := by
  simp only [SkipUntil.probe, StreamOf.attempt]
  rw [StreamOf.next_some h]
  simp [hm]

theorem suProbe_eof {cfg : SkipUntil I O} {s : StreamOf I}
    (h : s.buf[s.cursor]? = none) :
    cfg.probe s = (Except.error (s.cursor, (s.cursor, s.cursor)), s) := by
  simp only [SkipUntil.probe, StreamOf.attempt]
  rw [StreamOf.next_none h]
  simp

end ProbeLemmas

section SkipUntilLemmas

variable {I O : Type} [DecidableEq I]

/-- Master description of `SkipUntil`'s loop: with enough fuel it always
yields a result; the diagnostic list is returned untouched; the cursor never
moves backwards; failure only happens on an immediate end-of-input probe
without prior progress, with the `expected_input_found` error; success
returns the fallback applied to the span from `pre` to the final cursor, and
a zero-progress success forces an unconsumed leading terminator. -/
theorem suLoop_spec (cfg : SkipUntil I O) (pre : Nat) (a_errors : Diag I) :
    ∀ (fuel : Nat) (s : StreamOf I), s.buf.length - s.cursor < fuel → pre ≤ s.cursor →
    ∃ res s', SkipUntil.loop cfg pre a_errors fuel s = some ((a_errors, res), s') ∧
      s'.buf = s.buf ∧ s.cursor ≤ s'.cursor ∧
      (∀ e, res = Except.error e → s' = s ∧ s.cursor ≤ pre ∧ s.buf[s.cursor]? = none ∧
        e = ⟨s.cursor,
          PError.expectedInputFound (s.cursor, s.cursor) (cfg.until_.map some) none⟩) ∧
      (∀ out alt, res = Except.ok (out, alt) → alt = none ∧
        out = cfg.fallback (pre, s'.cursor) ∧
        (s'.cursor = pre → s.cursor = pre ∧ cfg.consume_end = false ∧
          ∃ t, s.buf[pre]? = some t ∧ t ∈ cfg.until_)) := by
  intro fuel
  induction fuel with
  | zero => intro s hf hp; omega
  | succ fuel ih =>
    intro s hf hp
    rcases hg : s.buf[s.cursor]? with _ | t
    · by_cases hgt : pre < s.cursor
      · refine ⟨Except.ok (cfg.fallback (pre, s.cursor), none), s, ?_, rfl, le_refl _,
          ?_, ?_⟩
        · simp only [SkipUntil.loop]
          rw [suProbe_eof hg]
          simp [StreamOf.save, StreamOf.span_since, hgt]
        · intro e he; exact Except.noConfusion he
        · intro out alt he
          injection he with h'
          injection h' with h1 h2
          exact ⟨h2.symm, h1.symm, fun hcp => absurd hcp (by omega)⟩
      · refine ⟨Except.error ⟨s.cursor,
          PError.expectedInputFound (s.cursor, s.cursor) (cfg.until_.map some) none⟩, s,
          ?_, rfl, le_refl _, ?_, ?_⟩
        · simp only [SkipUntil.loop]
          rw [suProbe_eof hg]
          simp [StreamOf.save, hgt]
        · intro e he
          injection he with h'
          exact ⟨rfl, by omega, rfl, h'.symm⟩
        · intro out alt he; exact Except.noConfusion he
    · by_cases hm : t ∈ cfg.until_
      · by_cases hc : cfg.consume_end
        · refine ⟨Except.ok (cfg.fallback (pre, s.cursor + 1), none),
            { s with cursor := s.cursor + 1 }, ?_, rfl, Nat.le_succ _, ?_, ?_⟩
          · simp only [SkipUntil.loop]
            rw [suProbe_mem hg hm]
            simp [hc, StreamOf.span_since]
          · intro e he; exact Except.noConfusion he
          · intro out alt he
            injection he with h'
            injection h' with h1 h2
            refine ⟨h2.symm, h1.symm, fun hcp => ?_⟩
            have hcp' : s.cursor + 1 = pre := hcp
            omega
        · refine ⟨Except.ok (cfg.fallback (pre, s.cursor), none), s, ?_, rfl, le_refl _,
            ?_, ?_⟩
          · simp only [SkipUntil.loop]
            rw [suProbe_mem hg hm]
            simp [hc, StreamOf.span_since]
          · intro e he; exact Except.noConfusion he
          · intro out alt he
            injection he with h'
            injection h' with h1 h2
            refine ⟨h2.symm, h1.symm, fun hcp => ?_⟩
            refine ⟨hcp, by simpa using hc, t, ?_, hm⟩
            rw [hcp] at hg
            exact hg
      · obtain ⟨hlt, -⟩ := List.getElem?_eq_some_iff.mp hg
        obtain ⟨res, s', hloop, hbuf, hcur, herr, hok⟩ :=
          ih { s with cursor := s.cursor + 1 }
            (show s.buf.length - (s.cursor + 1) < fuel by omega)
            (show pre ≤ s.cursor + 1 by omega)
        have hbuf' : s'.buf = s.buf := hbuf
        have hcur' : s.cursor + 1 ≤ s'.cursor := hcur
        refine ⟨res, s', ?_, hbuf', by omega, ?_, ?_⟩
        · simp only [SkipUntil.loop]
          rw [suProbe_ord hg hm]
          exact hloop
        · intro e he
          obtain ⟨-, hle, -, -⟩ := herr e he
          have hle' : s.cursor + 1 ≤ pre := hle
          omega
        · intro out alt he
          obtain ⟨h1, h2, h3⟩ := hok out alt he
          refine ⟨h1, h2, fun hcp => ?_⟩
          obtain ⟨hc1, -, -⟩ := h3 hcp
          have hc1' : s.cursor + 1 = pre := hc1
          omega

/-- `SkipUntil::recover` always yields a result: the diagnostics are exactly
the input ones followed by the demoted fatal error; failure only happens
with no token under the cursor and no progress, carrying the
`expected_input_found` error; success returns the fallback over the span
since the start, and a zero-width success forces `skip_start` and
`consume_end` unset with a terminator as the first input. -/
theorem SkipUntil.recover_spec (cfg : SkipUntil I O) (a_errors : Diag I) (a_err : Located I)
    (s : StreamOf I) :
    ∃ res s', cfg.recover a_errors a_err s = some ((a_errors ++ [a_err], res), s') ∧
      s'.buf = s.buf ∧ s.cursor ≤ s'.cursor ∧
      (∀ e, res = Except.error e → s' = s ∧ s.buf[s.cursor]? = none ∧
        e = ⟨s.cursor,
          PError.expectedInputFound (s.cursor, s.cursor) (cfg.until_.map some) none⟩) ∧
      (∀ out alt, res = Except.ok (out, alt) → alt = none ∧
        out = cfg.fallback (s.cursor, s'.cursor) ∧
        (s'.cursor = s.cursor → cfg.skip_start = false ∧ cfg.consume_end = false ∧
          ∃ t, s.buf[s.cursor]? = some t ∧ t ∈ cfg.until_)) := by
  by_cases hskip : cfg.skip_start
  · rcases hg : s.buf[s.cursor]? with _ | t
    · obtain ⟨res, s', hloop, hbuf, hcur, herr, hok⟩ :=
        suLoop_spec cfg s.cursor (a_errors ++ [a_err]) (s.buf.length + 1) s
          (by omega) (le_refl _)
      refine ⟨res, s', ?_, hbuf, hcur, ?_, ?_⟩
      · simp only [SkipUntil.recover, hskip, if_pos, StreamOf.save]
        rw [StreamOf.next_none hg]
        exact hloop
      · intro e he
        obtain ⟨h1, -, -, h4⟩ := herr e he
        exact ⟨h1, rfl, h4⟩
      · intro out alt he
        obtain ⟨h1, h2, h3⟩ := hok out alt he
        refine ⟨h1, h2, fun hcp => ?_⟩
        obtain ⟨-, -, t, hsome, -⟩ := h3 hcp
        rw [hg] at hsome
        exact Option.noConfusion hsome
    · obtain ⟨res, s', hloop, hbuf, hcur, herr, hok⟩ :=
        suLoop_spec cfg s.cursor (a_errors ++ [a_err]) (s.buf.length + 1)
          { s with cursor := s.cursor + 1 }
          (show s.buf.length - (s.cursor + 1) < s.buf.length + 1 by omega)
          (show s.cursor ≤ s.cursor + 1 by omega)
      have hbuf' : s'.buf = s.buf := hbuf
      have hcur' : s.cursor + 1 ≤ s'.cursor := hcur
      refine ⟨res, s', ?_, hbuf', by omega, ?_, ?_⟩
      · simp only [SkipUntil.recover, hskip, if_pos, StreamOf.save]
        rw [StreamOf.next_some hg]
        exact hloop
      · intro e he
        obtain ⟨-, hle, -, -⟩ := herr e he
        have hle' : s.cursor + 1 ≤ s.cursor := hle
        omega
      · intro out alt he
        obtain ⟨h1, h2, h3⟩ := hok out alt he
        refine ⟨h1, h2, fun hcp => ?_⟩
        omega
  · obtain ⟨res, s', hloop, hbuf, hcur, herr, hok⟩ :=
      suLoop_spec cfg s.cursor (a_errors ++ [a_err]) (s.buf.length + 1) s
        (by omega) (le_refl _)
    refine ⟨res, s', ?_, hbuf, hcur, ?_, ?_⟩
    · simp only [SkipUntil.recover, hskip, if_neg, StreamOf.save]
      exact hloop
    · intro e he
      obtain ⟨h1, -, h3, h4⟩ := herr e he
      exact ⟨h1, h3, h4⟩
    · intro out alt he
      obtain ⟨h1, h2, h3⟩ := hok out alt he
      refine ⟨h1, h2, fun hcp => ?_⟩
      obtain ⟨hc1, hc2, ht⟩ := h3 hcp
      exact ⟨by simpa using hskip, hc2, ht⟩

end SkipUntilLemmas

section SkipThenRetryLemmas

variable {I O : Type} [DecidableEq I]

theorem strProbe_mem {cfg : SkipThenRetryUntil I} {s : StreamOf I} {t : I}
    (h : s.buf[s.cursor]? = some t) (hm : t ∈ cfg.until_) :
    cfg.probe s = (false,
      if cfg.consume_end then { s with cursor := s.cursor + 1 } else s) := by
  simp only [SkipThenRetryUntil.probe, StreamOf.attempt]
  rw [StreamOf.next_some h]
  simp [hm]

theorem strProbe_ord {cfg : SkipThenRetryUntil I} {s : StreamOf I} {t : I}
    (h : s.buf[s.cursor]? = some t) (hm : t ∉ cfg.until_) :
    cfg.probe s = (true, { s with cursor := s.cursor + 1 }) := by
  simp only [SkipThenRetryUntil.probe, StreamOf.attempt]
  rw [StreamOf.next_some h]
  simp [hm]

theorem strProbe_eof {cfg : SkipThenRetryUntil I} {s : StreamOf I}
    (h : s.buf[s.cursor]? = none) :
    cfg.probe s = (false, s) := by
  simp only [SkipThenRetryUntil.probe, StreamOf.attempt]
  rw [StreamOf.next_none h]
  simp

/-- Master description of `SkipThenRetryUntil`'s loop: whatever fuel, a
failure re-raises exactly the fatal error with the incoming diagnostics
untouched, while a success returns some successful re-attempt of the wrapped
parser, its diagnostics followed by the demoted fatal error — the incoming
diagnostic list is discarded. -/
theorem strLoop_spec (cfg : SkipThenRetryUntil I) (parser : ParserFn I O)
    (a_errors : Diag I) (a_err : Located I) :
    ∀ (fuel : Nat) (s : StreamOf I) r,
      SkipThenRetryUntil.loop cfg parser a_errors a_err fuel s = some r →
      (∀ e, r.1.2 = Except.error e → e = a_err ∧ r.1.1 = a_errors) ∧
      (∀ out, r.1.2 = Except.ok out →
        ∃ s₁ perrs s₂, parser s₁ = ((perrs, Except.ok out), s₂) ∧
          r.1.1 = perrs ++ [a_err] ∧ r.2 = s₂) := by
  intro fuel
  induction fuel with
  | zero => intro s r hr; exact Option.noConfusion hr
  | succ fuel ih =>
    intro s r hr
    rcases hpr : cfg.probe s with ⟨b, s₁⟩
    cases b
    · simp only [SkipThenRetryUntil.loop, hpr] at hr
      injection hr with hr
      subst hr
      constructor
      · intro e he
        injection he with he
        exact ⟨he.symm, rfl⟩
      · intro out he; exact Except.noConfusion he
    · rcases hq : parser s₁ with ⟨⟨errors, res⟩, s₂⟩
      rcases res with e | out'
      · simp only [SkipThenRetryUntil.loop, hpr, hq] at hr
        exact ih s₂ r hr
      · simp only [SkipThenRetryUntil.loop, hpr, hq] at hr
        injection hr with hr
        subst hr
        constructor
        · intro e he; exact Except.noConfusion he
        · intro out he
          injection he with he
          subst he
          exact ⟨s₁, errors, s₂, hq, rfl, rfl⟩

end SkipThenRetryLemmas

section NestedLemmas

variable {I O : Type} [DecidableEq I]

/-- Definitional unfolding of `ndOthers` on a cons cell. -/
theorem ndOthers_cons (cfg : NestedDelimiters I O) (balance : Int) (t : I) (atp : Nat)
    (span : Span) (bo : Int) (os oe : I) (rest : List (Int × I × I)) (starts : List Span)
    (error : Option (Located I)) :
    ndOthers cfg balance t atp span ((bo, os, oe) :: rest) starts error =
      (if t = os then
        (ndOthers cfg balance t atp span rest starts error).map
          fun r => ((bo + 1) :: r.1, r.2)
      else if t = oe then
        if bo - 1 < 0 ∧ balance = 1 then
          match error with
          | some e =>
            (ndOthers cfg balance t atp span rest starts (some e)).map
              fun r => ((bo - 1) :: r.1, r.2)
          | none =>
            match starts with
            | [] => none
            | sp :: starts' =>
              (ndOthers cfg balance t atp span rest starts'
                  (some ⟨atp,
                    PError.unclosedDelimiter sp cfg.start span cfg.end_ (some t)⟩)).map
                fun r => ((bo - 1) :: r.1, r.2)
        else
          (ndOthers cfg balance t atp span rest starts error).map
            fun r => ((bo - 1) :: r.1, r.2)
      else
        (ndOthers cfg balance t atp span rest starts error).map
          fun r => (bo :: r.1, r.2)) := rfl

/-- Case analysis on the secondary-pair fold: an already-recorded diagnostic
is kept and the stack untouched; with the primary balance away from one the
stack and diagnostic are untouched; one level inside the primary pair with
no diagnostic yet and a nonempty stack, either nothing is recorded or the
top of the stack is popped into a fresh unclosed-delimiter diagnostic. -/
theorem ndOthers_spec (cfg : NestedDelimiters I O) (balance : Int) (t : I) (atp : Nat)
    (span : Span) :
    ∀ (pairs : List (Int × I × I)) (starts : List Span) (error : Option (Located I)),
      (∀ e, error = some e → ∃ bos, ndOthers cfg balance t atp span pairs starts error =
        some (bos, starts, some e)) ∧
      (balance ≠ 1 → ∃ bos, ndOthers cfg balance t atp span pairs starts error =
        some (bos, starts, error)) ∧
      (balance = 1 → error = none → ∀ sp tl, starts = sp :: tl →
        ∃ bos, ndOthers cfg balance t atp span pairs starts error =
            some (bos, starts, none) ∨
          ndOthers cfg balance t atp span pairs starts error =
            some (bos, tl, some ⟨atp,
              PError.unclosedDelimiter sp cfg.start span cfg.end_ (some t)⟩)) := by
  intro pairs
  induction pairs with
  | nil =>
    intro starts error
    refine ⟨?_, ?_, ?_⟩
    · intro e he; exact ⟨[], by rw [ndOthers, he]⟩
    · intro _; exact ⟨[], by rw [ndOthers]⟩
    · intro _ he sp tl hst; subst he; exact ⟨[], Or.inl (by rw [ndOthers])⟩
  | cons p rest ih =>
    rcases p with ⟨bo, os, oe⟩
    intro starts error
    refine ⟨?_, ?_, ?_⟩
    · intro e he
      subst he
      by_cases h1 : t = os
      · obtain ⟨bos, hrec⟩ := (ih starts (some e)).1 e rfl
        exact ⟨(bo + 1) :: bos, by rw [ndOthers_cons, if_pos h1, hrec]; rfl⟩
      · by_cases h2 : t = oe
        · by_cases h3 : bo - 1 < 0 ∧ balance = 1
          · obtain ⟨bos, hrec⟩ := (ih starts (some e)).1 e rfl
            exact ⟨(bo - 1) :: bos,
              by rw [ndOthers_cons, if_neg h1, if_pos h2, if_pos h3]; simp [hrec]⟩
          · obtain ⟨bos, hrec⟩ := (ih starts (some e)).1 e rfl
            exact ⟨(bo - 1) :: bos,
              by rw [ndOthers_cons, if_neg h1, if_pos h2, if_neg h3, hrec]; rfl⟩
        · obtain ⟨bos, hrec⟩ := (ih starts (some e)).1 e rfl
          exact ⟨bo :: bos, by rw [ndOthers_cons, if_neg h1, if_neg h2, hrec]; rfl⟩
    · intro hb
      by_cases h1 : t = os
      · obtain ⟨bos, hrec⟩ := (ih starts error).2.1 hb
        exact ⟨(bo + 1) :: bos, by rw [ndOthers_cons, if_pos h1, hrec]; rfl⟩
      · by_cases h2 : t = oe
        · have h3 : ¬(bo - 1 < 0 ∧ balance = 1) := fun hc => hb hc.2
          obtain ⟨bos, hrec⟩ := (ih starts error).2.1 hb
          exact ⟨(bo - 1) :: bos,
            by rw [ndOthers_cons, if_neg h1, if_pos h2, if_neg h3, hrec]; rfl⟩
        · obtain ⟨bos, hrec⟩ := (ih starts error).2.1 hb
          exact ⟨bo :: bos, by rw [ndOthers_cons, if_neg h1, if_neg h2, hrec]; rfl⟩
    · intro hb he sp tl hst
      subst he
      by_cases h1 : t = os
      · obtain ⟨bos, hrec⟩ := (ih starts none).2.2 hb rfl sp tl hst
        rcases hrec with hrec | hrec
        · exact ⟨(bo + 1) :: bos, Or.inl (by rw [ndOthers_cons, if_pos h1, hrec]; rfl)⟩
        · exact ⟨(bo + 1) :: bos, Or.inr (by rw [ndOthers_cons, if_pos h1, hrec]; rfl)⟩
      · by_cases h2 : t = oe
        · by_cases h3 : bo - 1 < 0 ∧ balance = 1
          · obtain ⟨bos, hrec⟩ := (ih tl (some ⟨atp,
              PError.unclosedDelimiter sp cfg.start span cfg.end_ (some t)⟩)).1 _ rfl
            refine ⟨(bo - 1) :: bos, Or.inr ?_⟩
            rw [ndOthers_cons, if_neg h1, if_pos h2, if_pos h3, hst]
            simp [hrec]
          · obtain ⟨bos, hrec⟩ := (ih starts none).2.2 hb rfl sp tl hst
            rcases hrec with hrec | hrec
            · exact ⟨(bo - 1) :: bos,
                Or.inl (by rw [ndOthers_cons, if_neg h1, if_pos h2, if_neg h3, hrec]; rfl)⟩
            · exact ⟨(bo - 1) :: bos,
                Or.inr (by rw [ndOthers_cons, if_neg h1, if_pos h2, if_neg h3, hrec]; rfl)⟩
        · obtain ⟨bos, hrec⟩ := (ih starts none).2.2 hb rfl sp tl hst
          rcases hrec with hrec | hrec
          · exact ⟨bo :: bos, Or.inl (by rw [ndOthers_cons, if_neg h1, if_neg h2, hrec]; rfl)⟩
          · exact ⟨bo :: bos, Or.inr (by rw [ndOthers_cons, if_neg h1, if_neg h2, hrec]; rfl)⟩

theorem ndStep_start (cfg : NestedDelimiters I O) {st : NDState I} {t : I}
    (hg : st.stream.buf[st.stream.cursor]? = some t) (ht : t = cfg.start) :
    ndStep cfg st = some (afterMatched
      { st with
          balance := st.balance + 1,
          starts := (st.stream.cursor, st.stream.cursor + 1) :: st.starts,
          stream := { st.stream with cursor := st.stream.cursor + 1 } }) := by
  simp only [ndStep]
  rw [StreamOf.next_some hg]
  simp [ht]

theorem ndStep_end (cfg : NestedDelimiters I O) {st : NDState I} {t : I}
    (hg : st.stream.buf[st.stream.cursor]? = some t) (ht : t = cfg.end_)
    (hne : t ≠ cfg.start) :
    ndStep cfg st = some (afterMatched
      { st with
          balance := st.balance - 1,
          starts := st.starts.tail,
          stream := { st.stream with cursor := st.stream.cursor + 1 } }) := by
  simp only [ndStep]
  rw [StreamOf.next_some hg]
  subst ht
  simp [hne]

theorem ndStep_other (cfg : NestedDelimiters I O) {st : NDState I} {t : I}
    (hg : st.stream.buf[st.stream.cursor]? = some t) (h0 : t ≠ cfg.start)
    (h1 : t ≠ cfg.end_) :
    (ndOthers cfg st.balance t st.stream.cursor (st.stream.cursor, st.stream.cursor + 1)
        (st.balance_others.zip cfg.others) st.starts st.error = none →
      ndStep cfg st = none) ∧
    (∀ bos starts' error',
      ndOthers cfg st.balance t st.stream.cursor (st.stream.cursor, st.stream.cursor + 1)
          (st.balance_others.zip cfg.others) st.starts st.error =
        some (bos, starts', error') →
      ndStep cfg st =
        (if st.balance = 0 then
          some (StepRes.done
            { st with
                balance_others := bos, starts := starts', error := error',
                stream := { st.stream with cursor := st.stream.cursor + 1 } } false)
        else
          some (StepRes.cont
            { st with
                balance_others := bos, starts := starts', error := error',
                stream := { st.stream with cursor := st.stream.cursor + 1 } }))) := by
  constructor
  · intro ho
    simp only [ndStep]
    rw [StreamOf.next_some hg]
    simp [h0, h1, ho]
  · intro bos starts' error' ho
    simp only [ndStep]
    rw [StreamOf.next_some hg]
    simp [h0, h1, ho]

theorem ndStep_eof_stale (cfg : NestedDelimiters I O) {st : NDState I}
    (hg : st.stream.buf[st.stream.cursor]? = none) (hb : st.balance ≠ 1) :
    ndStep cfg st = some (StepRes.done st false) := by
  rcases st with ⟨bal, bos0, sts, err, strm⟩
  simp only [ndStep] at hg ⊢
  rw [StreamOf.next_none hg]
  simp_all

theorem ndStep_eof_recorded (cfg : NestedDelimiters I O) {st : NDState I} {e : Located I}
    (hg : st.stream.buf[st.stream.cursor]? = none) (hb : st.balance = 1)
    (he : st.error = some e) :
    ndStep cfg st = some (StepRes.done st false) := by
  rcases st with ⟨bal, bos0, sts, err, strm⟩
  simp only [ndStep] at hg he ⊢
  rw [StreamOf.next_none hg]
  subst he
  simp_all

theorem ndStep_eof_unclosed (cfg : NestedDelimiters I O) {st : NDState I} {sp : Span}
    {tl : List Span} (hg : st.stream.buf[st.stream.cursor]? = none) (hb : st.balance = 1)
    (he : st.error = none) (hs : st.starts = sp :: tl) :
    ndStep cfg st = some (StepRes.done
      { st with
          error := some ⟨st.stream.cursor,
            PError.unclosedDelimiter sp cfg.start (st.stream.cursor, st.stream.cursor)
              cfg.end_ none⟩ } false) := by
  rcases st with ⟨bal, bos0, sts, err, strm⟩
  simp only [ndStep] at hg he hs ⊢
  rw [StreamOf.next_none hg]
  subst he
  subst hs
  simp_all

theorem ndStep_eof_nostart (cfg : NestedDelimiters I O) {st : NDState I}
    (hg : st.stream.buf[st.stream.cursor]? = none) (hb : st.balance = 1)
    (he : st.error = none) (hs : st.starts = []) :
    ndStep cfg st = some (StepRes.done
      { st with
          error := some ⟨st.stream.cursor,
            PError.expectedInputFound (st.stream.cursor, st.stream.cursor)
              [some cfg.end_] none⟩ } false) := by
  rcases st with ⟨bal, bos0, sts, err, strm⟩
  simp only [ndStep] at hg he hs ⊢
  rw [StreamOf.next_none hg]
  subst he
  subst hs
  simp_all

/-- Master description of the nested-delimiter scanning loop: from any state
satisfying the stack/balance invariant `NDInv` and with enough fuel, the loop
neither panics nor runs out of fuel; the buffer is untouched and the cursor
never moves backwards (strictly forwards on success); a recorded diagnostic
is never dropped, and any newly recorded diagnostic is an
`unclosed_delimiter` (never the `expected_input_found` of the
empty-stack end-of-input branch). -/
theorem ndLoop_spec (cfg : NestedDelimiters I O) :
    ∀ (fuel : Nat) (st : NDState I), st.stream.buf.length - st.stream.cursor < fuel →
      NDInv st →
      ∃ rec st', ndLoop cfg fuel st = some (rec, st') ∧
        st'.stream.buf = st.stream.buf ∧ st.stream.cursor ≤ st'.stream.cursor ∧
        (rec = true → st.stream.cursor < st'.stream.cursor) ∧
        (∀ e, st.error = some e → st'.error = some e) ∧
        (st.error = none → st'.error = none ∨
          ∃ e, st'.error = some e ∧ e.error.isUnclosed) := by
  intro fuel
  induction fuel with
  | zero => intro st hf hinv; omega
  | succ fuel ih =>
    intro st hf hinv
    rcases hg : st.stream.buf[st.stream.cursor]? with _ | t
    · -- end of input: the loop breaks with recovery failed
      by_cases hb : st.balance = 1
      · rcases he : st.error with _ | e
        · have hlen : st.starts.length = st.balance.toNat := hinv he (by omega)
          rcases hs : st.starts with _ | ⟨sp, tl⟩
          · rw [hs, hb] at hlen; simp at hlen
          · refine ⟨false,
              { st with error := some ⟨st.stream.cursor, PError.unclosedDelimiter sp
                  cfg.start (st.stream.cursor, st.stream.cursor) cfg.end_ none⟩ },
              by simp only [ndLoop, ndStep_eof_unclosed cfg hg hb he hs],
              rfl, le_refl _, fun hco => Bool.noConfusion hco,
              fun e' he' => Option.noConfusion he',
              fun _ => Or.inr ⟨_, rfl, trivial⟩⟩
        · exact ⟨false, st, by simp only [ndLoop, ndStep_eof_recorded cfg hg hb he],
            rfl, le_refl _, fun hco => Bool.noConfusion hco,
            fun e' he' => he.trans he', fun hn => Option.noConfusion hn⟩
      · exact ⟨false, st, by simp only [ndLoop, ndStep_eof_stale cfg hg hb],
          rfl, le_refl _, fun hco => Bool.noConfusion hco,
          fun e' he' => he', fun hn => Or.inl hn⟩
    · obtain ⟨hlt, -⟩ := List.getElem?_eq_some_iff.mp hg
      by_cases h0 : t = cfg.start
      · have hstep := ndStep_start cfg hg h0
        by_cases hz : st.balance + 1 = 0
        · refine ⟨true,
            { st with
                balance := st.balance + 1,
                starts := (st.stream.cursor, st.stream.cursor + 1) :: st.starts,
                stream := { st.stream with cursor := st.stream.cursor + 1 } },
            ?_, rfl, Nat.le_succ _, fun _ => Nat.lt_succ_self _,
            fun e' he' => he', fun hn => Or.inl hn⟩
          simp only [ndLoop, hstep, afterMatched]
          rw [if_pos hz]
        · by_cases hneg : st.balance + 1 < 0
          · refine ⟨false,
              { st with
                  balance := st.balance + 1,
                  starts := (st.stream.cursor, st.stream.cursor + 1) :: st.starts,
                  stream := { st.stream with cursor := st.stream.cursor + 1 } },
              ?_, rfl, Nat.le_succ _, fun hco => Bool.noConfusion hco,
              fun e' he' => he', fun hn => Or.inl hn⟩
            simp only [ndLoop, hstep, afterMatched]
            rw [if_neg hz, if_pos hneg]
          · have hinvA : NDInv
                { st with
                    balance := st.balance + 1,
                    starts := (st.stream.cursor, st.stream.cursor + 1) :: st.starts,
                    stream := { st.stream with cursor := st.stream.cursor + 1 } } := by
              intro heA hbA
              have h01 : (0 : Int) ≤ st.balance := by omega
              have := hinv heA h01
              simp only [List.length_cons]
              omega
            obtain ⟨rec, st', hl, hb', hc', hstrict, hmono, hnone⟩ :=
              ih _ (show st.stream.buf.length - (st.stream.cursor + 1) < fuel by omega)
                hinvA
            have hb'' : st'.stream.buf = st.stream.buf := hb'
            have hc'' : st.stream.cursor + 1 ≤ st'.stream.cursor := hc'
            refine ⟨rec, st', ?_, hb'', by omega, fun _ => by omega, hmono, hnone⟩
            simp only [ndLoop, hstep, afterMatched]
            rw [if_neg hz, if_neg hneg]
            exact hl
      · by_cases h1 : t = cfg.end_
        · have hstep := ndStep_end cfg hg h1 h0
          by_cases hz : st.balance - 1 = 0
          · refine ⟨true,
              { st with
                  balance := st.balance - 1,
                  starts := st.starts.tail,
                  stream := { st.stream with cursor := st.stream.cursor + 1 } },
              ?_, rfl, Nat.le_succ _, fun _ => Nat.lt_succ_self _,
              fun e' he' => he', fun hn => Or.inl hn⟩
            simp only [ndLoop, hstep, afterMatched]
            rw [if_pos hz]
          · by_cases hneg : st.balance - 1 < 0
            · refine ⟨false,
                { st with
                    balance := st.balance - 1,
                    starts := st.starts.tail,
                    stream := { st.stream with cursor := st.stream.cursor + 1 } },
                ?_, rfl, Nat.le_succ _, fun hco => Bool.noConfusion hco,
                fun e' he' => he', fun hn => Or.inl hn⟩
              simp only [ndLoop, hstep, afterMatched]
              rw [if_neg hz, if_pos hneg]
            · have hinvB : NDInv
                  { st with
                      balance := st.balance - 1,
                      starts := st.starts.tail,
                      stream := { st.stream with cursor := st.stream.cursor + 1 } } := by
                intro heB hbB
                have h01 : (0 : Int) ≤ st.balance := by omega
                have hlen := hinv heB h01
                simp only [List.length_tail]
                omega
              obtain ⟨rec, st', hl, hb', hc', hstrict, hmono, hnone⟩ :=
                ih _ (show st.stream.buf.length - (st.stream.cursor + 1) < fuel by omega)
                  hinvB
              have hb'' : st'.stream.buf = st.stream.buf := hb'
              have hc'' : st.stream.cursor + 1 ≤ st'.stream.cursor := hc'
              refine ⟨rec, st', ?_, hb'', by omega, fun _ => by omega, hmono, hnone⟩
              simp only [ndLoop, hstep, afterMatched]
              rw [if_neg hz, if_neg hneg]
              exact hl
        · -- ordinary input: only the secondary counters may change
          rcases he : st.error with _ | e
          · by_cases hb : st.balance = 1
            · have hlen : st.starts.length = st.balance.toNat := hinv he (by omega)
              rcases hs : st.starts with _ | ⟨sp, tl⟩
              · rw [hs, hb] at hlen; simp at hlen
              · obtain ⟨bos, hrec⟩ := (ndOthers_spec cfg st.balance t st.stream.cursor
                  (st.stream.cursor, st.stream.cursor + 1)
                  (st.balance_others.zip cfg.others) st.starts st.error).2.2 hb he sp tl hs
                rcases hrec with hrec | hrec
                · have hstep := (ndStep_other cfg hg h0 h1).2 bos st.starts none hrec
                  rw [if_neg (show ¬st.balance = 0 by omega)] at hstep
                  have hinvC : NDInv
                      { st with
                          balance_others := bos, starts := st.starts, error := none,
                          stream := { st.stream with cursor := st.stream.cursor + 1 } } := by
                    intro heC hbC
                    exact hinv he hbC
                  obtain ⟨rec, st', hl, hb', hc', hstrict, hmono, hnone⟩ :=
                    ih _ (show st.stream.buf.length - (st.stream.cursor + 1) < fuel
                      by omega) hinvC
                  have hb'' : st'.stream.buf = st.stream.buf := hb'
                  have hc'' : st.stream.cursor + 1 ≤ st'.stream.cursor := hc'
                  refine ⟨rec, st', ?_, hb'', by omega, fun _ => by omega, ?_, ?_⟩
                  · simp only [ndLoop, hstep]
                    exact hl
                  · exact fun e' he' => Option.noConfusion he'
                  · intro _; exact hnone rfl
                · have hstep := (ndStep_other cfg hg h0 h1).2 bos tl
                    (some ⟨st.stream.cursor, PError.unclosedDelimiter sp cfg.start
                      (st.stream.cursor, st.stream.cursor + 1) cfg.end_ (some t)⟩) hrec
                  rw [if_neg (show ¬st.balance = 0 by omega)] at hstep
                  have hinvC : NDInv
                      { st with
                          balance_others := bos, starts := tl,
                          error := some ⟨st.stream.cursor, PError.unclosedDelimiter sp
                            cfg.start (st.stream.cursor, st.stream.cursor + 1)
                            cfg.end_ (some t)⟩,
                          stream := { st.stream with cursor := st.stream.cursor + 1 } } := by
                    intro heC hbC
                    cases heC
                  obtain ⟨rec, st', hl, hb', hc', hstrict, hmono, hnone⟩ :=
                    ih _ (show st.stream.buf.length - (st.stream.cursor + 1) < fuel
                      by omega) hinvC
                  have hb'' : st'.stream.buf = st.stream.buf := hb'
                  have hc'' : st.stream.cursor + 1 ≤ st'.stream.cursor := hc'
                  refine ⟨rec, st', ?_, hb'', by omega, fun _ => by omega, ?_, ?_⟩
                  · simp only [ndLoop, hstep]
                    exact hl
                  · exact fun e' he' => Option.noConfusion he'
                  · intro _
                    exact Or.inr ⟨_, hmono _ rfl, trivial⟩
            · obtain ⟨bos, hrec⟩ := (ndOthers_spec cfg st.balance t st.stream.cursor
                (st.stream.cursor, st.stream.cursor + 1)
                (st.balance_others.zip cfg.others) st.starts st.error).2.1 hb
              have hstep := (ndStep_other cfg hg h0 h1).2 bos st.starts st.error hrec
              by_cases hz : st.balance = 0
              · rw [if_pos hz] at hstep
                refine ⟨false,
                  { st with
                      balance_others := bos, starts := st.starts, error := st.error,
                      stream := { st.stream with cursor := st.stream.cursor + 1 } },
                  by simp only [ndLoop, hstep], rfl, Nat.le_succ _,
                  fun hco => Bool.noConfusion hco, fun e' he' => Option.noConfusion he',
                  fun _ => Or.inl he⟩
              · rw [if_neg hz] at hstep
                have hinvC : NDInv
                    { st with
                        balance_others := bos, starts := st.starts, error := st.error,
                        stream := { st.stream with cursor := st.stream.cursor + 1 } } := by
                  intro heC hbC
                  exact hinv heC hbC
                obtain ⟨rec, st', hl, hb', hc', hstrict, hmono, hnone⟩ :=
                  ih _ (show st.stream.buf.length - (st.stream.cursor + 1) < fuel
                    by omega) hinvC
                have hb'' : st'.stream.buf = st.stream.buf := hb'
                have hc'' : st.stream.cursor + 1 ≤ st'.stream.cursor := hc'
                refine ⟨rec, st', ?_, hb'', by omega, fun _ => by omega,
                  fun e' he' => hmono e' (he.trans he'), fun _ => hnone he⟩
                simp only [ndLoop, hstep]
                exact hl
          · obtain ⟨bos, hrec⟩ := (ndOthers_spec cfg st.balance t st.stream.cursor
              (st.stream.cursor, st.stream.cursor + 1)
              (st.balance_others.zip cfg.others) st.starts st.error).1 e he
            have hstep := (ndStep_other cfg hg h0 h1).2 bos st.starts (some e) hrec
            by_cases hz : st.balance = 0
            · rw [if_pos hz] at hstep
              refine ⟨false,
                { st with
                    balance_others := bos, starts := st.starts, error := some e,
                    stream := { st.stream with cursor := st.stream.cursor + 1 } },
                by simp only [ndLoop, hstep], rfl, Nat.le_succ _,
                fun hco => Bool.noConfusion hco, fun e' he' => he',
                fun hn => Option.noConfusion hn⟩
            · rw [if_neg hz] at hstep
              have hinvC : NDInv
                  { st with
                      balance_others := bos, starts := st.starts, error := some e,
                      stream := { st.stream with cursor := st.stream.cursor + 1 } } := by
                intro heC hbC
                cases heC
              obtain ⟨rec, st', hl, hb', hc', hstrict, hmono, hnone⟩ :=
                ih _ (show st.stream.buf.length - (st.stream.cursor + 1) < fuel
                  by omega) hinvC
              have hb'' : st'.stream.buf = st.stream.buf := hb'
              have hc'' : st.stream.cursor + 1 ≤ st'.stream.cursor := hc'
              refine ⟨rec, st', ?_, hb'', by omega, fun _ => by omega, ?_, ?_⟩
              · simp only [ndLoop, hstep]
                exact hl
              · intro e' he'; injection he' with he'; subst he'
                exact hmono _ rfl
              · exact fun hn => Option.noConfusion hn

/-- `NestedDelimiters::recover` on a failed scan: the recorded diagnostic
(if any) is appended and the fatal error re-raised unchanged. -/
theorem NestedDelimiters.recover_eq_false {cfg : NestedDelimiters I O}
    {a_errors : Diag I} {a_err : Located I} {s : StreamOf I} {st' : NDState I}
    (h : ndLoop cfg (s.buf.length + 1)
        ⟨0, List.replicate cfg.others.length 0, [], none, s⟩ = some (false, st')) :
    cfg.recover a_errors a_err s =
      some ((a_errors ++ st'.error.toList, Except.error a_err), st'.stream) := by
  simp only [NestedDelimiters.recover, h]
  rfl

/-- `NestedDelimiters::recover` on a successful scan: the recorded diagnostic
(if any) is appended, the fatal error is appended only when every diagnostic
so far sits strictly before it, and the fallback value spans from the start
checkpoint to the final cursor. -/
theorem NestedDelimiters.recover_eq_true {cfg : NestedDelimiters I O}
    {a_errors : Diag I} {a_err : Located I} {s : StreamOf I} {st' : NDState I}
    (h : ndLoop cfg (s.buf.length + 1)
        ⟨0, List.replicate cfg.others.length 0, [], none, s⟩ = some (true, st')) :
    cfg.recover a_errors a_err s =
      some (((match (a_errors ++ st'.error.toList).getLast? with
          | none => (a_errors ++ st'.error.toList) ++ [a_err]
          | some e => if a_err.pos < e.pos then (a_errors ++ st'.error.toList) ++ [a_err]
              else a_errors ++ st'.error.toList),
        Except.ok (cfg.fallback (s.cursor, st'.stream.cursor), none)), st'.stream) := by
  simp only [NestedDelimiters.recover, h]
  simp [StreamOf.save, StreamOf.span_since]

/-- `NestedDelimiters::recover`'s scan always yields a result (the fuel is
sufficient and the `starts.pop().unwrap()` never panics), starting from the
fresh per-attempt state, which satisfies the stack/balance invariant. -/
theorem NestedDelimiters.recover_loop (cfg : NestedDelimiters I O) (s : StreamOf I) :
    ∃ rec st', ndLoop cfg (s.buf.length + 1)
        ⟨0, List.replicate cfg.others.length 0, [], none, s⟩ = some (rec, st') ∧
      st'.stream.buf = s.buf ∧ s.cursor ≤ st'.stream.cursor ∧
      (rec = true → s.cursor < st'.stream.cursor) ∧
      (st'.error = none ∨ ∃ e, st'.error = some e ∧ e.error.isUnclosed) := by
  obtain ⟨rec, st', hl, hb, hc, hstrict, -, hnone⟩ :=
    ndLoop_spec cfg (s.buf.length + 1)
      ⟨0, List.replicate cfg.others.length 0, [], none, s⟩
      (show s.buf.length - s.cursor < s.buf.length + 1 by omega)
      (by intro h1 h2; rfl)
  exact ⟨rec, st', hl, hb, hc, hstrict, hnone rfl⟩

/-- One step of the scanning loop preserves the stack/balance invariant on
every continuation state. -/
theorem ndStep_preserves_inv (cfg : NestedDelimiters I O) (st st' : NDState I)
    (hinv : NDInv st) (h : ndStep cfg st = some (StepRes.cont st')) : NDInv st' := by
  rcases hg : st.stream.buf[st.stream.cursor]? with _ | t
  · -- end of input never continues
    exfalso
    by_cases hb : st.balance = 1
    · rcases he : st.error with _ | e
      · rcases hs : st.starts with _ | ⟨sp, tl⟩
        · have hlen : st.starts.length = st.balance.toNat := hinv he (by omega)
          rw [hs, hb] at hlen; simp at hlen
        · rw [ndStep_eof_unclosed cfg hg hb he hs] at h
          injection h with h
          exact StepRes.noConfusion h
      · rw [ndStep_eof_recorded cfg hg hb he] at h
        injection h with h
        exact StepRes.noConfusion h
    · rw [ndStep_eof_stale cfg hg hb] at h
      injection h with h
      exact StepRes.noConfusion h
  · by_cases h0 : t = cfg.start
    · rw [ndStep_start cfg hg h0] at h
      injection h with h
      simp only [afterMatched] at h
      split at h
      · exact StepRes.noConfusion h
      · split at h
        · exact StepRes.noConfusion h
        · injection h with h
          subst h
          intro heA hbA
          have h01 : (0 : Int) ≤ st.balance := by
            rename_i hz hneg
            omega
          have := hinv heA h01
          simp only [List.length_cons]
          omega
    · by_cases h1 : t = cfg.end_
      · rw [ndStep_end cfg hg h1 h0] at h
        injection h with h
        simp only [afterMatched] at h
        split at h
        · exact StepRes.noConfusion h
        · split at h
          · exact StepRes.noConfusion h
          · injection h with h
            subst h
            intro heB hbB
            have h01 : (0 : Int) ≤ st.balance := by
              rename_i hz hneg
              omega
            have hlen := hinv heB h01
            simp only [List.length_tail]
            omega
      · rcases he : st.error with _ | e
        · by_cases hb : st.balance = 1
          · have hlen : st.starts.length = st.balance.toNat := hinv he (by omega)
            rcases hs : st.starts with _ | ⟨sp, tl⟩
            · rw [hs, hb] at hlen; simp at hlen
            · obtain ⟨bos, hrec⟩ := (ndOthers_spec cfg st.balance t st.stream.cursor
                (st.stream.cursor, st.stream.cursor + 1)
                (st.balance_others.zip cfg.others) st.starts st.error).2.2 hb he sp tl hs
              rcases hrec with hrec | hrec
              · have hstep := (ndStep_other cfg hg h0 h1).2 bos st.starts none hrec
                rw [if_neg (show ¬st.balance = 0 by omega)] at hstep
                rw [hstep] at h
                injection h with h
                injection h with h
                subst h
                intro heC hbC
                exact hinv he hbC
              · have hstep := (ndStep_other cfg hg h0 h1).2 bos tl
                  (some ⟨st.stream.cursor, PError.unclosedDelimiter sp cfg.start
                    (st.stream.cursor, st.stream.cursor + 1) cfg.end_ (some t)⟩) hrec
                rw [if_neg (show ¬st.balance = 0 by omega)] at hstep
                rw [hstep] at h
                injection h with h
                injection h with h
                subst h
                intro heC hbC
                exact Option.noConfusion heC
          · obtain ⟨bos, hrec⟩ := (ndOthers_spec cfg st.balance t st.stream.cursor
              (st.stream.cursor, st.stream.cursor + 1)
              (st.balance_others.zip cfg.others) st.starts st.error).2.1 hb
            have hstep := (ndStep_other cfg hg h0 h1).2 bos st.starts st.error hrec
            by_cases hz : st.balance = 0
            · rw [if_pos hz] at hstep
              rw [hstep] at h
              injection h with h
              exact StepRes.noConfusion h
            · rw [if_neg hz] at hstep
              rw [hstep] at h
              injection h with h
              injection h with h
              subst h
              intro heC hbC
              exact hinv heC hbC
        · obtain ⟨bos, hrec⟩ := (ndOthers_spec cfg st.balance t st.stream.cursor
            (st.stream.cursor, st.stream.cursor + 1)
            (st.balance_others.zip cfg.others) st.starts st.error).1 e he
          have hstep := (ndStep_other cfg hg h0 h1).2 bos st.starts (some e) hrec
          by_cases hz : st.balance = 0
          · rw [if_pos hz] at hstep
            rw [hstep] at h
            injection h with h
            exact StepRes.noConfusion h
          · rw [if_neg hz] at hstep
            rw [hstep] at h
            injection h with h
            injection h with h
            subst h
            intro heC hbC
            exact Option.noConfusion heC

end NestedLemmas

section Claims

/-- C5: in the nested-delimiter strategy, after a "matched" input (the
primary start or primary end delimiter) the loop succeeds when the updated
balance is zero, fails when it is negative, and continues when it is
positive; an "unmatched" input seen at balance zero fails immediately; and
on the concrete input consisting of just the primary end delimiter the whole
recovery fails rather than succeeding with a zero-width span. -/
theorem nested_balance_cases_claim (I O : Type) [DecidableEq I]
    (cfg : NestedDelimiters I O) (st : NDState I) (t : I)
    (hg : st.stream.buf[st.stream.cursor]? = some t) :
    (t = cfg.start →
      (st.balance + 1 = 0 → ∃ st', ndStep cfg st = some (StepRes.done st' true)) ∧
      (st.balance + 1 < 0 → ∃ st', ndStep cfg st = some (StepRes.done st' false)) ∧
      (0 < st.balance + 1 → ∃ st', ndStep cfg st = some (StepRes.cont st'))) ∧
    (t ≠ cfg.start → t = cfg.end_ →
      (st.balance - 1 = 0 → ∃ st', ndStep cfg st = some (StepRes.done st' true)) ∧
      (st.balance - 1 < 0 → ∃ st', ndStep cfg st = some (StepRes.done st' false)) ∧
      (0 < st.balance - 1 → ∃ st', ndStep cfg st = some (StepRes.cont st'))) ∧
    (t ≠ cfg.start → t ≠ cfg.end_ → st.balance = 0 →
      ∃ st', ndStep cfg st = some (StepRes.done st' false)) ∧
    (∀ a_err : Located Nat,
      NestedDelimiters.recover (⟨1, 2, [], id⟩ : NestedDelimiters Nat Span)
          [] a_err ⟨[2], 0⟩ =
        some (([], Except.error a_err), ⟨[2], 1⟩)) := by
  refine ⟨?_, ?_, ?_, ?_⟩
  · intro h0
    have hstep := ndStep_start cfg hg h0
    refine ⟨?_, ?_, ?_⟩
    · intro hz
      exact ⟨_, by
        rw [hstep]
        simp only [afterMatched]
        rw [if_pos hz]⟩
    · intro hneg
      exact ⟨_, by
        rw [hstep]
        simp only [afterMatched]
        rw [if_neg (show ¬st.balance + 1 = 0 by omega), if_pos hneg]⟩
    · intro hpos
      exact ⟨_, by
        rw [hstep]
        simp only [afterMatched]
        rw [if_neg (show ¬st.balance + 1 = 0 by omega),
          if_neg (show ¬st.balance + 1 < 0 by omega)]⟩
  · intro h0 h1
    have hstep := ndStep_end cfg hg h1 h0
    refine ⟨?_, ?_, ?_⟩
    · intro hz
      exact ⟨_, by
        rw [hstep]
        simp only [afterMatched]
        rw [if_pos hz]⟩
    · intro hneg
      exact ⟨_, by
        rw [hstep]
        simp only [afterMatched]
        rw [if_neg (show ¬st.balance - 1 = 0 by omega), if_pos hneg]⟩
    · intro hpos
      exact ⟨_, by
        rw [hstep]
        simp only [afterMatched]
        rw [if_neg (show ¬st.balance - 1 = 0 by omega),
          if_neg (show ¬st.balance - 1 < 0 by omega)]⟩
  · intro h0 h1 hz
    obtain ⟨bos, hrec⟩ := (ndOthers_spec cfg st.balance t st.stream.cursor
      (st.stream.cursor, st.stream.cursor + 1)
      (st.balance_others.zip cfg.others) st.starts st.error).2.1 (by omega)
    have hstep := (ndStep_other cfg hg h0 h1).2 bos st.starts st.error hrec
    rw [if_pos hz] at hstep
    exact ⟨_, hstep⟩
  · intro a_err
    rfl

/-- Witness for C5 at a concrete state: the opening delimiter continues the
loop from balance zero. -/
theorem nested_balance_cases_claim_witness :
    ∃ st', ndStep (⟨1, 2, [], id⟩ : NestedDelimiters Nat Span)
        ⟨0, [], [], none, ⟨[1], 0⟩⟩ = some (StepRes.cont st') :=
  ((nested_balance_cases_claim Nat Span ⟨1, 2, [], id⟩
    ⟨0, [], [], none, ⟨[1], 0⟩⟩ 1 rfl).1 rfl).2.2 (by decide)

/-- C6: in `RecoverVia`, when `A` fails and `B` (from the reverted start
checkpoint) succeeds, the diagnostics are exactly `A`'s diagnostics, then
`A`'s fatal error, then `B`'s diagnostics, the output is `B`'s, and the
stream is left where `B` ended (not reverted). -/
theorem recover_via_merge_claim (I O : Type) [DecidableEq I] (p : RecoverVia I O)
    (s : StreamOf I) (a_errors b_errors : Diag I) (a_error : Located I)
    (b_out : O × Option (Located I)) (s₁ s₂ : StreamOf I)
    (hA : p.a s = ((a_errors, Except.error a_error), s₁))
    (hB : p.b (s₁.revert s.save) = ((b_errors, Except.ok b_out), s₂)) :
    p.parse_inner s = ((a_errors ++ a_error :: b_errors, Except.ok b_out), s₂) := by
  simp only [RecoverVia.parse_inner, hA, hB]

/-- Witness for C6 at concrete parsers: the merged diagnostics are `A`'s
fatal error alone and the output is `B`'s. -/
theorem recover_via_merge_claim_witness :
    RecoverVia.parse_inner
        (⟨fun s => (([], Except.error ⟨0, PError.custom 1⟩), s),
          fun s => (([], Except.ok ((0, 0), none)), s)⟩ : RecoverVia Nat Span)
        ⟨[], 0⟩ =
      (([⟨0, PError.custom 1⟩], Except.ok ((0, 0), none)), ⟨[], 0⟩) :=
  recover_via_merge_claim Nat Span
    ⟨fun s => (([], Except.error ⟨0, PError.custom 1⟩), s),
      fun s => (([], Except.ok ((0, 0), none)), s)⟩
    ⟨[], 0⟩ [] [] ⟨0, PError.custom 1⟩ ((0, 0), none) ⟨[], 0⟩ ⟨[], 0⟩ rfl rfl

/-- C7: in `RecoverVia`, when both `A` and `B` fail, only `A`'s fatal error
is returned with `A`'s diagnostics — none of `B`'s diagnostics or error —
and the stream is reverted to the checkpoint saved before `A` ran. -/
theorem recover_via_double_failure_claim (I O : Type) [DecidableEq I]
    (p : RecoverVia I O) (s : StreamOf I) (a_errors b_errors : Diag I)
    (a_error b_err : Located I) (s₁ s₂ : StreamOf I)
    (hA : p.a s = ((a_errors, Except.error a_error), s₁))
    (hB : p.b (s₁.revert s.save) = ((b_errors, Except.error b_err), s₂)) :
    p.parse_inner s = ((a_errors, Except.error a_error), s₂.revert s.save) ∧
      (s₂.revert s.save).cursor = s.cursor := by
  exact ⟨by simp only [RecoverVia.parse_inner, hA, hB], rfl⟩

/-- Witness for C7 at concrete parsers: `B`'s diagnostics are discarded and
the cursor is back at the start. -/
theorem recover_via_double_failure_claim_witness :
    RecoverVia.parse_inner
        (⟨fun s => (([], Except.error ⟨0, PError.custom 1⟩), s),
          fun s => (([⟨0, PError.custom 2⟩], Except.error ⟨0, PError.custom 3⟩),
            { s with cursor := s.cursor + 1 })⟩ : RecoverVia Nat Span)
        ⟨[7], 0⟩ =
      (([], Except.error ⟨0, PError.custom 1⟩), ⟨[7], 0⟩) :=
  (recover_via_double_failure_claim Nat Span
    ⟨fun s => (([], Except.error ⟨0, PError.custom 1⟩), s),
      fun s => (([⟨0, PError.custom 2⟩], Except.error ⟨0, PError.custom 3⟩),
        { s with cursor := s.cursor + 1 })⟩
    ⟨[7], 0⟩ [] [⟨0, PError.custom 2⟩] ⟨0, PError.custom 1⟩ ⟨0, PError.custom 3⟩
    ⟨[7], 0⟩ ⟨[7], 1⟩ rfl rfl).1

/-- C8: in the retry-after-skip strategy, a probed terminator aborts
recovery immediately, re-raising the original fatal error with the
diagnostics untouched; the terminator is consumed exactly when
`consume_end` is set, and nothing past it is ever consumed. -/
theorem skip_retry_terminator_claim (I O : Type) [DecidableEq I]
    (cfg : SkipThenRetryUntil I) (parser : ParserFn I O) (a_errors : Diag I)
    (a_err : Located I) (fuel : Nat) (s : StreamOf I) (t : I)
    (hg : s.buf[s.cursor]? = some t) (hm : t ∈ cfg.until_) :
    SkipThenRetryUntil.loop cfg parser a_errors a_err (fuel + 1) s =
      some ((a_errors, Except.error a_err),
        if cfg.consume_end then { s with cursor := s.cursor + 1 } else s) := by
  simp only [SkipThenRetryUntil.loop, strProbe_mem hg hm]

/-- Witness for C8 at a concrete stream whose first input is a terminator,
with `consume_end` set: the terminator is consumed and the fatal error
re-raised. -/
theorem skip_retry_terminator_claim_witness :
    SkipThenRetryUntil.loop (⟨[9], true, false⟩ : SkipThenRetryUntil Nat)
        (fun s => (([], Except.error ⟨0, PError.custom 0⟩), s) :
          ParserFn Nat Span)
        [] ⟨1, PError.custom 5⟩ 1 ⟨[9], 0⟩ =
      some (([], Except.error ⟨1, PError.custom 5⟩), ⟨[9], 1⟩) :=
  skip_retry_terminator_claim Nat Span ⟨[9], true, false⟩
    (fun s => (([], Except.error ⟨0, PError.custom 0⟩), s)) [] ⟨1, PError.custom 5⟩
    0 ⟨[9], 0⟩ 9 rfl (by decide)

/-- C9: in the skip-to-fallback strategy, an end-of-input probe succeeds
with the fallback over the span since the starting checkpoint when the
cursor has advanced strictly past it, and otherwise fails with an
`expected_input_found` error naming the terminator set and no found input,
consuming nothing in either case. -/
theorem skip_until_eof_claim (I O : Type) [DecidableEq I] (cfg : SkipUntil I O)
    (pre_state : Nat) (a_errors : Diag I) (fuel : Nat) (s : StreamOf I)
    (h : s.buf[s.cursor]? = none) :
    SkipUntil.loop cfg pre_state a_errors (fuel + 1) s =
      if pre_state < s.cursor then
        some ((a_errors, Except.ok (cfg.fallback (pre_state, s.cursor), none)), s)
      else
        some ((a_errors, Except.error ⟨s.cursor,
          PError.expectedInputFound (s.cursor, s.cursor) (cfg.until_.map some) none⟩),
          s) := by
  simp only [SkipUntil.loop, suProbe_eof h]
  by_cases hgt : pre_state < s.cursor
  · simp [StreamOf.save, StreamOf.span_since, hgt]
  · simp [StreamOf.save, hgt]

/-- Witness for C9 at two concrete streams: end of input after progress
succeeds with the accumulated span, and end of input with no progress fails
with the `expected_input_found` error. -/
theorem skip_until_eof_claim_witness :
    (SkipUntil.loop (⟨[9], id, false, false⟩ : SkipUntil Nat Span) 0 [] 1 ⟨[5], 1⟩ =
      some (([], Except.ok ((0, 1), none)), ⟨[5], 1⟩)) ∧
    (SkipUntil.loop (⟨[9], id, false, false⟩ : SkipUntil Nat Span) 0 [] 1 ⟨[], 0⟩ =
      some (([], Except.error ⟨0,
        PError.expectedInputFound (0, 0) [some 9] none⟩), ⟨[], 0⟩)) :=
  ⟨skip_until_eof_claim Nat Span ⟨[9], id, false, false⟩ 0 [] 0 ⟨[5], 1⟩ rfl,
    skip_until_eof_claim Nat Span ⟨[9], id, false, false⟩ 0 [] 0 ⟨[], 0⟩ rfl⟩

/-- On a successful nested-delimiter scan, the returned diagnostic list is
the passed-in list plus the recorded diagnostic, with the demoted fatal
error at the end unless the last diagnostic so far does not sit strictly
before it. -/
theorem NestedDelimiters.recover_true_diags {I O : Type} [DecidableEq I]
    {cfg : NestedDelimiters I O} {a_errors : Diag I} {a_err : Located I}
    {s : StreamOf I} {st' : NDState I}
    (h : ndLoop cfg (s.buf.length + 1)
        ⟨0, List.replicate cfg.others.length 0, [], none, s⟩ = some (true, st')) :
    ∃ errs, cfg.recover a_errors a_err s =
        some ((errs,
          Except.ok (cfg.fallback (s.cursor, st'.stream.cursor), none)), st'.stream) ∧
      (errs = a_errors ++ (st'.error.toList ++ [a_err]) ∨
        (errs = a_errors ++ st'.error.toList ∧
          ∃ last, errs.getLast? = some last ∧ ¬ a_err.pos < last.pos)) := by
  have heq := @NestedDelimiters.recover_eq_true I O _ cfg a_errors a_err s st' h
  rcases hgl : (a_errors ++ st'.error.toList).getLast? with _ | e2
  · rw [hgl] at heq
    exact ⟨a_errors ++ st'.error.toList ++ [a_err], heq,
      Or.inl (List.append_assoc _ _ _)⟩
  · rw [hgl] at heq
    have heq2 : cfg.recover a_errors a_err s =
        some (((if a_err.pos < e2.pos then a_errors ++ st'.error.toList ++ [a_err]
            else a_errors ++ st'.error.toList),
          Except.ok (cfg.fallback (s.cursor, st'.stream.cursor), none)), st'.stream) := heq
    by_cases hlt : a_err.pos < e2.pos
    · rw [if_pos hlt] at heq2
      exact ⟨a_errors ++ st'.error.toList ++ [a_err], heq2,
        Or.inl (List.append_assoc _ _ _)⟩
    · rw [if_neg hlt] at heq2
      exact ⟨a_errors ++ st'.error.toList, heq2, Or.inr ⟨rfl, e2, hgl, hlt⟩⟩

/-- C1 (amended): the diagnostic-prefix invariant holds for `SkipUntil` and
`NestedDelimiters`, and for `SkipThenRetryUntil` on failure; but on a
successful `SkipThenRetryUntil` recovery the returned list is the
re-attempted parser's diagnostics followed by the demoted fatal error — the
passed-in list is discarded, so it need not be a prefix. -/
theorem diag_prefix_claim (I O : Type) [DecidableEq I] :
    (∀ (cfg : SkipUntil I O) (a_errors : Diag I) (a_err : Located I) (s : StreamOf I)
        (r : PResult I O × StreamOf I),
      cfg.recover a_errors a_err s = some r → a_errors <+: r.1.1) ∧
    (∀ (cfg : NestedDelimiters I O) (a_errors : Diag I) (a_err : Located I)
        (s : StreamOf I) (r : PResult I O × StreamOf I),
      cfg.recover a_errors a_err s = some r → a_errors <+: r.1.1) ∧
    (∀ (cfg : SkipThenRetryUntil I) (parser : ParserFn I O) (a_errors : Diag I)
        (a_err : Located I) (fuel : Nat) (s : StreamOf I)
        (r : PResult I O × StreamOf I),
      cfg.recover a_errors a_err parser fuel s = some r →
      (∀ e, r.1.2 = Except.error e → r.1.1 = a_errors) ∧
      (∀ out, r.1.2 = Except.ok out →
        ∃ s₁ perrs s₂, parser s₁ = ((perrs, Except.ok out), s₂) ∧
          r.1.1 = perrs ++ [a_err])) := by
  refine ⟨?_, ?_, ?_⟩
  · intro cfg a_errors a_err s r h
    obtain ⟨res, s', hrec, -, -, -, -⟩ := SkipUntil.recover_spec cfg a_errors a_err s
    rw [hrec] at h
    injection h with h
    subst h
    exact ⟨[a_err], rfl⟩
  · intro cfg a_errors a_err s r h
    obtain ⟨rec, st', hl, -, -, -, -⟩ := NestedDelimiters.recover_loop cfg s
    cases rec
    · rw [NestedDelimiters.recover_eq_false hl] at h
      injection h with h
      subst h
      exact ⟨st'.error.toList, rfl⟩
    · obtain ⟨errs, heq, hd⟩ := NestedDelimiters.recover_true_diags hl
      rw [heq] at h
      injection h with h
      subst h
      rcases hd with hd | ⟨hd, -⟩
      · exact ⟨st'.error.toList ++ [a_err], hd.symm⟩
      · exact ⟨st'.error.toList, hd.symm⟩
  · intro cfg parser a_errors a_err fuel s r h
    simp only [SkipThenRetryUntil.recover] at h
    obtain ⟨he, hok⟩ := strLoop_spec cfg parser a_errors a_err fuel _ r h
    refine ⟨fun e hhe => (he e hhe).2, fun out hout => ?_⟩
    obtain ⟨s₁, perrs, s₂, h1, h2, -⟩ := hok out hout
    exact ⟨s₁, perrs, s₂, h1, h2⟩

/-- Counterexample for C1 as stated: a `SkipThenRetryUntil` recovery that
succeeds after one skip returns the re-attempted parser's (empty)
diagnostics plus the fatal error, of which the nonempty passed-in diagnostic
list is not a prefix. -/
theorem diag_prefix_counterexample :
    SkipThenRetryUntil.recover (⟨[], false, false⟩ : SkipThenRetryUntil Nat)
        [⟨0, PError.custom 7⟩] ⟨1, PError.custom 8⟩
        (fun s => (([], Except.ok ((0, 0), none)), s)) 3 ⟨[5], 0⟩ =
      some (([⟨1, PError.custom 8⟩], Except.ok ((0, 0), none)), ⟨[5], 1⟩) ∧
    ¬ ([(⟨0, PError.custom 7⟩ : Located Nat)] <+: [⟨1, PError.custom 8⟩]) :=
  ⟨rfl, by decide⟩

/-- Witness for C1 (amended) at a concrete `SkipUntil` invocation: the
passed-in diagnostics are a prefix of the returned ones. -/
theorem diag_prefix_claim_witness :
    [(⟨0, PError.custom 7⟩ : Located Nat)] <+:
      [⟨0, PError.custom 7⟩, ⟨1, PError.custom 8⟩] :=
  (diag_prefix_claim Nat Span).1 ⟨[9], id, false, false⟩ [⟨0, PError.custom 7⟩]
    ⟨1, PError.custom 8⟩ ⟨[], 0⟩
    (([⟨0, PError.custom 7⟩, ⟨1, PError.custom 8⟩],
      Except.error ⟨0, PError.expectedInputFound (0, 0) [some 9] none⟩), ⟨[], 0⟩)
    rfl

/-- C2 (amended): when the nested-delimiter strategy fails, the original
fatal error is re-raised unchanged, but the returned diagnostic list is the
passed-in list with the at-most-one locally recorded diagnostic appended —
it is not always discarded. -/
theorem nested_failure_diags_claim (I O : Type) [DecidableEq I]
    (cfg : NestedDelimiters I O) (a_errors : Diag I) (a_err : Located I)
    (s : StreamOf I) (r : PResult I O × StreamOf I)
    (h : cfg.recover a_errors a_err s = some r) :
    ∀ e, r.1.2 = Except.error e → e = a_err ∧
      (r.1.1 = a_errors ∨ ∃ d, r.1.1 = a_errors ++ [d]) := by
  obtain ⟨rec, st', hl, -, -, -, -⟩ := NestedDelimiters.recover_loop cfg s
  cases rec
  · rw [NestedDelimiters.recover_eq_false hl] at h
    injection h with h
    subst h
    intro e he
    injection he with he
    refine ⟨he.symm, ?_⟩
    rcases st'.error with _ | d
    · exact Or.inl (List.append_nil a_errors)
    · exact Or.inr ⟨d, rfl⟩
  · rw [NestedDelimiters.recover_eq_true hl] at h
    injection h with h
    subst h
    intro e he
    exact Except.noConfusion he

/-- Counterexample for C2 as stated: recovery on an unclosed opening
delimiter fails, yet the returned diagnostic list is not the (empty)
passed-in list — the locally recorded unclosed-delimiter diagnostic was
appended. -/
theorem nested_failure_diags_counterexample :
    NestedDelimiters.recover (⟨1, 2, [], id⟩ : NestedDelimiters Nat Span)
        [] ⟨0, PError.custom 3⟩ ⟨[1], 0⟩ =
      some (([⟨1, PError.unclosedDelimiter (0, 1) 1 (1, 1) 2 none⟩],
        Except.error ⟨0, PError.custom 3⟩), ⟨[1], 1⟩) ∧
    ([(⟨1, PError.unclosedDelimiter (0, 1) 1 (1, 1) 2 none⟩ : Located Nat)] ≠ []) :=
  ⟨rfl, by decide⟩

/-- Witness for C2 (amended) at the same concrete failing recovery. -/
theorem nested_failure_diags_claim_witness :
    (⟨0, PError.custom 3⟩ : Located Nat) = ⟨0, PError.custom 3⟩ ∧
      ([(⟨1, PError.unclosedDelimiter (0, 1) 1 (1, 1) 2 none⟩ : Located Nat)] = [] ∨
        ∃ d, [(⟨1, PError.unclosedDelimiter (0, 1) 1 (1, 1) 2 none⟩ : Located Nat)] =
          [] ++ [d]) :=
  nested_failure_diags_claim Nat Span ⟨1, 2, [], id⟩ [] ⟨0, PError.custom 3⟩ ⟨[1], 0⟩
    (([⟨1, PError.unclosedDelimiter (0, 1) 1 (1, 1) 2 none⟩],
      Except.error ⟨0, PError.custom 3⟩), ⟨[1], 1⟩) (by rfl) ⟨0, PError.custom 3⟩ rfl

/-- C4 (amended): a successful recovery that synthesizes a fallback value
hands it the span from the start checkpoint to the final cursor; for
`NestedDelimiters` that span is always non-zero-width, and for `SkipUntil`
it is zero-width exactly when nothing was skipped: `skip_start` and
`consume_end` unset and the very first probed input already a terminator. -/
theorem progress_span_claim (I O : Type) [DecidableEq I] :
    (∀ (cfg : SkipUntil I O) (a_errors : Diag I) (a_err : Located I) (s : StreamOf I)
        (r : PResult I O × StreamOf I),
      cfg.recover a_errors a_err s = some r →
      ∀ out alt, r.1.2 = Except.ok (out, alt) →
        ∃ c', out = cfg.fallback (s.cursor, c') ∧
          (s.cursor < c' ∨ (c' = s.cursor ∧ cfg.skip_start = false ∧
            cfg.consume_end = false ∧
            ∃ t, s.buf[s.cursor]? = some t ∧ t ∈ cfg.until_))) ∧
    (∀ (cfg : NestedDelimiters I O) (a_errors : Diag I) (a_err : Located I)
        (s : StreamOf I) (r : PResult I O × StreamOf I),
      cfg.recover a_errors a_err s = some r →
      ∀ out alt, r.1.2 = Except.ok (out, alt) →
        ∃ c', out = cfg.fallback (s.cursor, c') ∧ s.cursor < c') := by
  constructor
  · intro cfg a_errors a_err s r h out alt hout
    obtain ⟨res, s', hrec, -, hcur, -, hok⟩ := SkipUntil.recover_spec cfg a_errors a_err s
    rw [hrec] at h
    injection h with h
    subst h
    obtain ⟨-, h2, h3⟩ := hok out alt hout
    refine ⟨s'.cursor, h2, ?_⟩
    rcases Nat.eq_or_lt_of_le hcur with heq | hlt
    · obtain ⟨hc1, hc2, ht⟩ := h3 heq.symm
      exact Or.inr ⟨heq.symm, hc1, hc2, ht⟩
    · exact Or.inl hlt
  · intro cfg a_errors a_err s r h out alt hout
    obtain ⟨rec, st', hl, -, -, hstrict, -⟩ := NestedDelimiters.recover_loop cfg s
    cases rec
    · rw [NestedDelimiters.recover_eq_false hl] at h
      injection h with h
      subst h
      exact Except.noConfusion hout
    · obtain ⟨errs, heq, -⟩ := NestedDelimiters.recover_true_diags hl
      rw [heq] at h
      injection h with h
      subst h
      injection hout with hout
      injection hout with hout1 hout2
      exact ⟨st'.stream.cursor, hout1.symm, hstrict rfl⟩

/-- Counterexample for C4 as stated: with input available and no
unconditional first skip, a `SkipUntil` recovery whose first probed input is
already a terminator (with `consume_end` unset) succeeds with a zero-width
span. -/
theorem progress_span_counterexample :
    SkipUntil.recover (⟨[9], id, false, false⟩ : SkipUntil Nat Span)
        [] ⟨0, PError.custom 3⟩ ⟨[9], 0⟩ =
      some (([⟨0, PError.custom 3⟩], Except.ok ((0, 0), none)), ⟨[9], 0⟩) ∧
    (⟨[9], 0⟩ : StreamOf Nat).buf ≠ [] ∧
    (⟨[9], id, false, false⟩ : SkipUntil Nat Span).skip_start = false ∧
    ¬ (0 : Nat) < 0 :=
  ⟨rfl, by decide, rfl, by decide⟩

/-- Witness for C4 (amended) at a concrete `SkipUntil` invocation that skips
one ordinary input before the terminator: the span is non-zero-width. -/
theorem progress_span_claim_witness :
    ∃ c', ((0 : Nat), (1 : Nat)) = id ((0 : Nat), c') ∧
      ((0 : Nat) < c' ∨ (c' = 0 ∧
        (⟨[9], id, false, false⟩ : SkipUntil Nat Span).skip_start = false ∧
        (⟨[9], id, false, false⟩ : SkipUntil Nat Span).consume_end = false ∧
        ∃ t, (⟨[5, 9], 0⟩ : StreamOf Nat).buf[(⟨[5, 9], 0⟩ : StreamOf Nat).cursor]? =
          some t ∧ t ∈ [9])) :=
  (progress_span_claim Nat Span).1 ⟨[9], id, false, false⟩ [] ⟨0, PError.custom 3⟩
    ⟨[5, 9], 0⟩
    (([⟨0, PError.custom 3⟩], Except.ok ((0, 1), none)), ⟨[5, 9], 1⟩)
    (by rfl) (0, 1) none rfl

/-- C10 (amended): the opener-stack length equals the primary balance
whenever the balance is non-negative *and no mismatch diagnostic has been
recorded yet* (`NDInv`), and this invariant is preserved by every loop
continuation; consequently the `starts.pop().unwrap()` never panics (the
modelled recovery never returns `none`) and the end-of-input
`expected_input_found` branch is unreachable: every diagnostic the strategy
appends is the demoted fatal error or an unclosed-delimiter diagnostic. -/
theorem nested_stack_invariant_claim (I O : Type) [DecidableEq I] :
    (∀ (cfg : NestedDelimiters I O) (st st' : NDState I), NDInv st →
      ndStep cfg st = some (StepRes.cont st') → NDInv st') ∧
    (∀ (cfg : NestedDelimiters I O) (a_errors : Diag I) (a_err : Located I)
        (s : StreamOf I), cfg.recover a_errors a_err s ≠ none) ∧
    (∀ (cfg : NestedDelimiters I O) (a_errors : Diag I) (a_err : Located I)
        (s : StreamOf I) (r : PResult I O × StreamOf I),
      cfg.recover a_errors a_err s = some r →
      ∀ e ∈ r.1.1.drop a_errors.length, e = a_err ∨ e.error.isUnclosed) := by
  refine ⟨fun cfg st st' hinv h => ndStep_preserves_inv cfg st st' hinv h, ?_, ?_⟩
  · intro cfg a_errors a_err s
    obtain ⟨rec, st', hl, -, -, -, -⟩ := NestedDelimiters.recover_loop cfg s
    cases rec
    · rw [NestedDelimiters.recover_eq_false hl]
      exact Option.some_ne_none _
    · obtain ⟨errs, heq, -⟩ := NestedDelimiters.recover_true_diags hl
      rw [heq]
      exact Option.some_ne_none _
  · intro cfg a_errors a_err s r h e hmem
    obtain ⟨rec, st', hl, -, -, -, herr⟩ := NestedDelimiters.recover_loop cfg s
    cases rec
    · rw [NestedDelimiters.recover_eq_false hl] at h
      injection h with h
      subst h
      have hmem2 : e ∈ (a_errors ++ st'.error.toList).drop a_errors.length := hmem
      rw [List.drop_left] at hmem2
      rcases herr with hnone | ⟨e0, he0, hunc⟩
      · rw [hnone] at hmem2
        simp at hmem2
      · rw [he0] at hmem2
        simp at hmem2
        subst hmem2
        exact Or.inr hunc
    · obtain ⟨errs, heq, hd⟩ := NestedDelimiters.recover_true_diags hl
      rw [heq] at h
      injection h with h
      subst h
      have hmem2 : e ∈ errs.drop a_errors.length := hmem
      rcases hd with hd | ⟨hd, -⟩
      · rw [hd, List.drop_left] at hmem2
        rw [List.mem_append] at hmem2
        rcases hmem2 with hmem2 | hmem2
        · rcases herr with hnone | ⟨e0, he0, hunc⟩
          · rw [hnone] at hmem2
            simp at hmem2
          · rw [he0] at hmem2
            simp at hmem2
            subst hmem2
            exact Or.inr hunc
        · simp at hmem2
          subst hmem2
          exact Or.inl rfl
      · rw [hd, List.drop_left] at hmem2
        rcases herr with hnone | ⟨e0, he0, hunc⟩
        · rw [hnone] at hmem2
          simp at hmem2
        · rw [he0] at hmem2
          simp at hmem2
          subst hmem2
          exact Or.inr hunc

/-- Counterexample for C10 as stated: on input "( ]" with primary pair
`(1, 2)` and secondary pair `(3, 4)`, the state reached after two loop
iterations (starting from the fresh state `recover` builds) has balance one
— non-negative — but an empty opener stack: the mismatch branch popped the
stack without touching the balance. -/
theorem nested_stack_invariant_counterexample :
    ndStep (⟨1, 2, [(3, 4)], id⟩ : NestedDelimiters Nat Span)
        ⟨0, [0], [], none, ⟨[1, 4], 0⟩⟩ =
      some (StepRes.cont ⟨1, [0], [(0, 1)], none, ⟨[1, 4], 1⟩⟩) ∧
    ndStep (⟨1, 2, [(3, 4)], id⟩ : NestedDelimiters Nat Span)
        ⟨1, [0], [(0, 1)], none, ⟨[1, 4], 1⟩⟩ =
      some (StepRes.cont ⟨1, [-1], [],
        some ⟨1, PError.unclosedDelimiter (0, 1) 1 (1, 2) 2 (some 4)⟩, ⟨[1, 4], 2⟩⟩) ∧
    (0 : Int) ≤ 1 ∧ ([] : List Span).length ≠ (1 : Int).toNat :=
  ⟨rfl, rfl, by decide, by decide⟩

/-- Witness for C10 (amended) at a concrete failing recovery: the appended
diagnostic is an unclosed-delimiter diagnostic (or the fatal error). -/
theorem nested_stack_invariant_claim_witness :
    (⟨1, PError.unclosedDelimiter (0, 1) 1 (1, 1) 2 none⟩ : Located Nat) =
        ⟨0, PError.custom 3⟩ ∨
      (PError.unclosedDelimiter (0, 1) 1 (1, 1) 2 none : PError Nat).isUnclosed :=
  (nested_stack_invariant_claim Nat Span).2.2 ⟨1, 2, [], id⟩ [] ⟨0, PError.custom 3⟩
    ⟨[1], 0⟩
    (([⟨1, PError.unclosedDelimiter (0, 1) 1 (1, 1) 2 none⟩],
      Except.error ⟨0, PError.custom 3⟩), ⟨[1], 1⟩) (by rfl)
    ⟨1, PError.unclosedDelimiter (0, 1) 1 (1, 1) 2 none⟩ (by decide)

end Claims

end Chumsky
